import Mathlib

/-!
Shallow embedding of `multilinear.py`: two finite parameterized algebraic
structures over the integers modulo `N` — a dimension-3 system (`M3System`,
`M3Element`) and a dimension-4 system (`M4System`, `M4Element`) — each with
componentwise addition/subtraction/negation, a custom bilinear-plus-linear
multiplication governed by scalar structure constants, and exponentiation by
squaring.

Modelling notes:
* Python `%` on `int` with a positive modulus is floor mod; Lean's `Int.emod`
  (`%`) agrees with it on every input that the claims range over (positive
  modulus), returning a value in `[0, N)`.
* Python compares system objects with default identity equality
  (`self.system != other.system`).  The field `oid` models the object
  identity: two systems created separately carry distinct `oid`s even when
  their constants coincide, and all structure fields (including `oid`)
  participate in decidable equality.
* `__add__`/`__sub__`/`__mul__` return `NotImplemented` on a system mismatch,
  which makes the surrounding expression fail; this is modelled by the
  `Option` result, `none` being the failure.
* `M3Element.__init__` length/type checks are absorbed by the fixed-arity
  tuple argument; the negative-exponent `ValueError` of `__pow__` is absorbed
  by the `Nat` exponent type.
* `M3System.__init__`/`M4System.__init__` have no failure path in the source;
  they are modelled as `Except`-returning constructors that always succeed,
  so that claims about construction errors can be stated.
-/

/-- `M3System.__init__` stores the five structure constants `A..E` and the
modulus, with no validation.  `oid` models Python object identity. -/
structure M3System where
  A : Int
  B : Int
  C : Int
  D : Int
  E : Int
  modulus : Int
  oid : Nat
deriving DecidableEq

/-- `M3System(A, B, C, D, E, modulus)`: the constructor performs no check at
all and always succeeds. -/
def M3System.init (A B C D E modulus : Int) (oid : Nat) : Except String M3System :=
  .ok { A := A, B := B, C := C, D := D, E := E, modulus := modulus, oid := oid }

/-- An `M3Element` is a vector of three residues bound to an `M3System`. -/
@[ext] structure M3Element where
  v0 : Int
  v1 : Int
  v2 : Int
  system : M3System
deriving DecidableEq

/-- `M3Element.__init__`: each component is reduced modulo the system's
modulus. -/
def M3Element.init (value : Int × Int × Int) (system : M3System) : M3Element :=
  { v0 := value.1 % system.modulus
    v1 := value.2.1 % system.modulus
    v2 := value.2.2 % system.modulus
    system := system }

/-- `M3Element.__add__`: componentwise addition mod `N`; fails (`none`) when
the systems differ. -/
def M3Element.add (a b : M3Element) : Option M3Element :=
  if a.system = b.system then
    some (M3Element.init
      ((a.v0 + b.v0) % a.system.modulus,
       (a.v1 + b.v1) % a.system.modulus,
       (a.v2 + b.v2) % a.system.modulus) a.system)
  else none

/-- `M3Element.__sub__`: componentwise subtraction mod `N`; fails (`none`)
when the systems differ. -/
def M3Element.sub (a b : M3Element) : Option M3Element :=
  if a.system = b.system then
    some (M3Element.init
      ((a.v0 - b.v0) % a.system.modulus,
       (a.v1 - b.v1) % a.system.modulus,
       (a.v2 - b.v2) % a.system.modulus) a.system)
  else none

/-- `M3Element.__neg__`: componentwise negation mod `N`. -/
def M3Element.neg (a : M3Element) : M3Element :=
  M3Element.init
    ((-a.v0) % a.system.modulus,
     (-a.v1) % a.system.modulus,
     (-a.v2) % a.system.modulus) a.system

/-- The body of `M3Element.__mul__` after the system-equality guard: the
dimension-3 multiplication formulas
`r0 = a0 + b0 + a0*b0 + A*a1*b1 + C*a2*b1 + B*a2*b2`,
`r1 = a1 + b1 + a1*b0 + a0*b1 + D*a1*b1 + E*a1*b2`,
`r2 = a2 + b2 + a2*b0 + a0*b2 + D*a2*b1 + E*a2*b2`, all mod `N`,
using the constants and modulus of `self.system`. -/
def M3Element.mulUnchecked (a b : M3Element) : M3Element :=
  M3Element.init
    ((a.v0 + b.v0 + a.v0 * b.v0 + a.system.A * a.v1 * b.v1
        + a.system.C * a.v2 * b.v1 + a.system.B * a.v2 * b.v2) % a.system.modulus,
     (a.v1 + b.v1 + a.v1 * b.v0 + a.v0 * b.v1
        + a.system.D * a.v1 * b.v1 + a.system.E * a.v1 * b.v2) % a.system.modulus,
     (a.v2 + b.v2 + a.v2 * b.v0 + a.v0 * b.v2
        + a.system.D * a.v2 * b.v1 + a.system.E * a.v2 * b.v2) % a.system.modulus)
    a.system

/-- `M3Element.__mul__`: the defining multiplication; fails (`none`) when the
systems differ. -/
def M3Element.mul (a b : M3Element) : Option M3Element :=
  if a.system = b.system then some (a.mulUnchecked b) else none

/-- The `while exponent > 0` loop of `M3Element.__pow__`: if the low bit is
set, multiply the accumulator by the running base (on the left); square the
base; halve the exponent. -/
def M3Element.powAux (result base : M3Element) (exp : Nat) : M3Element :=
  if h : exp = 0 then result
  else
    M3Element.powAux (if exp % 2 = 1 then result.mulUnchecked base else result)
      (base.mulUnchecked base) (exp / 2)
termination_by exp
decreasing_by exact Nat.div_lt_self (Nat.pos_of_ne_zero h) (by norm_num)

/-- `M3Element.__pow__`: square-and-multiply exponentiation, with the all-zero
vector (the asserted neutral element) as the initial accumulator. -/
def M3Element.pow (a : M3Element) (exponent : Nat) : M3Element :=
  let identity_element := M3Element.init (0, 0, 0) a.system
  if exponent = 0 then identity_element
  else M3Element.powAux identity_element a exponent

/-- Reference exponentiation from the spec (not in the source): an
accumulator initialized to the all-zero vector, left-multiplied by `a`
exactly `k` times in strict sequence (`acc := multiply(acc, a)`). -/
def M3Element.specNaivePow (a : M3Element) : Nat → M3Element
  | 0 => M3Element.init (0, 0, 0) a.system
  | k + 1 => (a.specNaivePow k).mulUnchecked a

/-- `M4System.__init__` stores the nine structure constants `A..I` and the
modulus, with no validation.  `oid` models Python object identity. -/
structure M4System where
  A : Int
  B : Int
  C : Int
  D : Int
  E : Int
  F : Int
  G : Int
  H : Int
  I : Int
  modulus : Int
  oid : Nat
deriving DecidableEq

/-- `M4System(A, ..., I, modulus)`: the constructor performs no check at all
and always succeeds. -/
def M4System.init (A B C D E F G H I modulus : Int) (oid : Nat) : Except String M4System :=
  .ok { A := A, B := B, C := C, D := D, E := E, F := F, G := G, H := H, I := I,
        modulus := modulus, oid := oid }

/-- An `M4Element` is a vector of four residues bound to an `M4System`. -/
@[ext] structure M4Element where
  v0 : Int
  v1 : Int
  v2 : Int
  v3 : Int
  system : M4System
deriving DecidableEq

/-- `M4Element.__init__`: each component is reduced modulo the system's
modulus. -/
def M4Element.init (value : Int × Int × Int × Int) (system : M4System) : M4Element :=
  { v0 := value.1 % system.modulus
    v1 := value.2.1 % system.modulus
    v2 := value.2.2.1 % system.modulus
    v3 := value.2.2.2 % system.modulus
    system := system }

/-- `M4Element.__add__`: componentwise addition mod `N`; fails (`none`) when
the systems differ. -/
def M4Element.add (a b : M4Element) : Option M4Element :=
  if a.system = b.system then
    some (M4Element.init
      ((a.v0 + b.v0) % a.system.modulus,
       (a.v1 + b.v1) % a.system.modulus,
       (a.v2 + b.v2) % a.system.modulus,
       (a.v3 + b.v3) % a.system.modulus) a.system)
  else none

/-- `M4Element.__sub__`: componentwise subtraction mod `N`; fails (`none`)
when the systems differ. -/
def M4Element.sub (a b : M4Element) : Option M4Element :=
  if a.system = b.system then
    some (M4Element.init
      ((a.v0 - b.v0) % a.system.modulus,
       (a.v1 - b.v1) % a.system.modulus,
       (a.v2 - b.v2) % a.system.modulus,
       (a.v3 - b.v3) % a.system.modulus) a.system)
  else none

/-- `M4Element.__neg__`: componentwise negation mod `N`. -/
def M4Element.neg (a : M4Element) : M4Element :=
  M4Element.init
    ((-a.v0) % a.system.modulus,
     (-a.v1) % a.system.modulus,
     (-a.v2) % a.system.modulus,
     (-a.v3) % a.system.modulus) a.system

/-- The body of `M4Element.__mul__` after the system-equality guard: the
dimension-4 multiplication formulas
`r0 = a0 + b0 + a0*b0 + A*a1*b1 + E*a3*b1 + B*a2*b2 + D*a1*b2 + F*a3*b2 + C*a3*b3`,
`r1 = a1 + b1 + a1*b0 + a0*b1 + G*a1*b1 + H*a1*b2 + I*a1*b3`,
`r2 = a2 + b2 + a2*b0 + a0*b2 + G*a2*b1 + H*a2*b2 + I*a2*b3`,
`r3 = a3 + b3 + a3*b0 + a0*b3 + G*a3*b1 + H*a3*b2 + I*a3*b3`, all mod `N`,
using the constants and modulus of `self.system`. -/
def M4Element.mulUnchecked (a b : M4Element) : M4Element :=
  M4Element.init
    ((a.v0 + b.v0 + a.v0 * b.v0 + a.system.A * a.v1 * b.v1 + a.system.E * a.v3 * b.v1
        + a.system.B * a.v2 * b.v2 + a.system.D * a.v1 * b.v2 + a.system.F * a.v3 * b.v2
        + a.system.C * a.v3 * b.v3) % a.system.modulus,
     (a.v1 + b.v1 + a.v1 * b.v0 + a.v0 * b.v1 + a.system.G * a.v1 * b.v1
        + a.system.H * a.v1 * b.v2 + a.system.I * a.v1 * b.v3) % a.system.modulus,
     (a.v2 + b.v2 + a.v2 * b.v0 + a.v0 * b.v2 + a.system.G * a.v2 * b.v1
        + a.system.H * a.v2 * b.v2 + a.system.I * a.v2 * b.v3) % a.system.modulus,
     (a.v3 + b.v3 + a.v3 * b.v0 + a.v0 * b.v3 + a.system.G * a.v3 * b.v1
        + a.system.H * a.v3 * b.v2 + a.system.I * a.v3 * b.v3) % a.system.modulus)
    a.system

/-- `M4Element.__mul__`: the defining multiplication; fails (`none`) when the
systems differ. -/
def M4Element.mul (a b : M4Element) : Option M4Element :=
  if a.system = b.system then some (a.mulUnchecked b) else none

/-- The `while exponent > 0` loop of `M4Element.__pow__`. -/
def M4Element.powAux (result base : M4Element) (exp : Nat) : M4Element :=
  if h : exp = 0 then result
  else
    M4Element.powAux (if exp % 2 = 1 then result.mulUnchecked base else result)
      (base.mulUnchecked base) (exp / 2)
termination_by exp
decreasing_by exact Nat.div_lt_self (Nat.pos_of_ne_zero h) (by norm_num)

/-- `M4Element.__pow__`: square-and-multiply exponentiation. -/
def M4Element.pow (a : M4Element) (exponent : Nat) : M4Element :=
  let identity_element := M4Element.init (0, 0, 0, 0) a.system
  if exponent = 0 then identity_element
  else M4Element.powAux identity_element a exponent

/-- Reference exponentiation from the spec (not in the source), dimension 4:
`acc := multiply(acc, a)` repeated `k` times from the all-zero vector. -/
def M4Element.specNaivePow (a : M4Element) : Nat → M4Element
  | 0 => M4Element.init (0, 0, 0, 0) a.system
  | k + 1 => (a.specNaivePow k).mulUnchecked a

/-!
## Proof infrastructure

Powers of a single element `a` stay inside the two-dimensional subalgebra
`{(c, l·a1, l·a2, ...)}` of scalar pairs `(c, l)`: the leading coordinate and
one coefficient along the non-leading part of `a`.  On such pairs the
multiplication becomes
`(c, l) * (d, m) = (c + d + c*d + q0*l*m, l + m + l*d + c*m + w*l*m)`
for two scalars `w` (the weighted sum of the non-leading components of `a`)
and `q0` (the quadratic form of the leading formula evaluated at `a`), and
this pair operation is associative with identity `(0, 0)`.  All mod-`N`
arithmetic is transported to `ZMod n` where the identities are polynomial.
-/

/-- Generic square-and-multiply loop over any monoid, mirroring the
`while exponent > 0` loop of `__pow__`. -/
def sqmulAux {M : Type} [Monoid M] (result base : M) (exp : Nat) : M :=
  if h : exp = 0 then result
  else
    sqmulAux (if exp % 2 = 1 then result * base else result) (base * base) (exp / 2)
termination_by exp
decreasing_by exact Nat.div_lt_self (Nat.pos_of_ne_zero h) (by norm_num)

theorem sqmulAux_eq {M : Type} [Monoid M] (result base : M) (exp : Nat) :
    sqmulAux result base exp = result * base ^ exp := by
  induction exp using Nat.strong_induction_on generalizing result base with
  | _ exp ih =>
    rw [sqmulAux]
    by_cases h : exp = 0
    · simp [h]
    · have hlt : exp / 2 < exp := Nat.div_lt_self (Nat.pos_of_ne_zero h) (by norm_num)
      rw [dif_neg h, ih _ hlt]
      have hb : (base * base) ^ (exp / 2) = base ^ (2 * (exp / 2)) := by
        rw [← pow_two, ← pow_mul]
      by_cases hp : exp % 2 = 1
      · have hexp : 2 * (exp / 2) + 1 = exp := by omega
        rw [if_pos hp, hb, mul_assoc, ← pow_succ', hexp]
      · have hexp : 2 * (exp / 2) = exp := by omega
        rw [if_neg hp, hb, hexp]

/-- The scalar-pair algebra: the image of the subalgebra spanned by the
identity direction and a fixed element's non-leading direction, with
parameters `w` (weighted non-leading sum) and `q0` (leading quadratic form). -/
@[ext] structure PairAlg (n : Nat) (w q0 : ZMod n) where
  c : ZMod n
  l : ZMod n

instance {n : Nat} {w q0 : ZMod n} : Mul (PairAlg n w q0) :=
  ⟨fun p q =>
    ⟨p.c + q.c + p.c * q.c + q0 * p.l * q.l,
     p.l + q.l + p.l * q.c + p.c * q.l + w * p.l * q.l⟩⟩

instance {n : Nat} {w q0 : ZMod n} : One (PairAlg n w q0) := ⟨⟨0, 0⟩⟩

@[simp] theorem PairAlg.mul_c {n : Nat} {w q0 : ZMod n} (p q : PairAlg n w q0) :
    (p * q).c = p.c + q.c + p.c * q.c + q0 * p.l * q.l := rfl

@[simp] theorem PairAlg.mul_l {n : Nat} {w q0 : ZMod n} (p q : PairAlg n w q0) :
    (p * q).l = p.l + q.l + p.l * q.c + p.c * q.l + w * p.l * q.l := rfl

@[simp] theorem PairAlg.one_c {n : Nat} {w q0 : ZMod n} : (1 : PairAlg n w q0).c = 0 := rfl

@[simp] theorem PairAlg.one_l {n : Nat} {w q0 : ZMod n} : (1 : PairAlg n w q0).l = 0 := rfl

instance {n : Nat} {w q0 : ZMod n} : Monoid (PairAlg n w q0) where
  mul_assoc p q r := by ext <;> simp <;> ring
  one_mul p := by ext <;> simp
  mul_one p := by ext <;> simp

/-- Two integers in `[0, n)` that agree in `ZMod n` are equal. -/
theorem int_eq_of_zmodCast_eq (n : Nat) (x y : Int)
    (hx0 : 0 ≤ x) (hx1 : x < (n : Int)) (hy0 : 0 ≤ y) (hy1 : y < (n : Int))
    (h : ((x : ZMod n) = (y : ZMod n))) : x = y := by
  have hmod := (ZMod.intCast_eq_intCast_iff x y n).1 h
  have hx : x % (n : Int) = x := Int.emod_eq_of_lt hx0 hx1
  have hy : y % (n : Int) = y := Int.emod_eq_of_lt hy0 hy1
  calc x = x % (n : Int) := hx.symm
    _ = y % (n : Int) := hmod
    _ = y := hy

/-! ### Dimension-3 bridge to `ZMod n` -/

/-- Componentwise cast of an `M3Element`'s vector into `ZMod n`. -/
def M3cast (n : Nat) (e : M3Element) : ZMod n × ZMod n × ZMod n :=
  ((e.v0 : ZMod n), (e.v1 : ZMod n), (e.v2 : ZMod n))

/-- The dimension-3 multiplication formulas transported to `ZMod n`. -/
def M3zmul {n : Nat} (cA cB cC cD cE : ZMod n)
    (a b : ZMod n × ZMod n × ZMod n) : ZMod n × ZMod n × ZMod n :=
  (a.1 + b.1 + a.1 * b.1 + cA * a.2.1 * b.2.1 + cC * a.2.2 * b.2.1 + cB * a.2.2 * b.2.2,
   a.2.1 + b.2.1 + a.2.1 * b.1 + a.1 * b.2.1 + cD * a.2.1 * b.2.1 + cE * a.2.1 * b.2.2,
   a.2.2 + b.2.2 + a.2.2 * b.1 + a.1 * b.2.2 + cD * a.2.2 * b.2.1 + cE * a.2.2 * b.2.2)

/-- Pair-algebra parameter `w` for dimension 3: the weighted sum of the base
element's non-leading components. -/
def M3w (s : M3System) (n : Nat) (x1 x2 : ZMod n) : ZMod n :=
  (s.D : ZMod n) * x1 + (s.E : ZMod n) * x2

/-- Pair-algebra parameter `q0` for dimension 3: the leading quadratic form
evaluated at the base element's non-leading components. -/
def M3q0 (s : M3System) (n : Nat) (x1 x2 : ZMod n) : ZMod n :=
  (s.A : ZMod n) * x1 * x1 + (s.C : ZMod n) * x2 * x1 + (s.B : ZMod n) * x2 * x2

/-- Embedding of the scalar-pair algebra into dimension-3 vectors along the
direction `(x1, x2)`. -/
def M3iota {s : M3System} {n : Nat} {x1 x2 : ZMod n}
    (p : PairAlg n (M3w s n x1 x2) (M3q0 s n x1 x2)) : ZMod n × ZMod n × ZMod n :=
  (p.c, p.l * x1, p.l * x2)

theorem M3cast_mulUnchecked (n : Nat) (a b : M3Element)
    (hn : (n : Int) = a.system.modulus) :
    M3cast n (a.mulUnchecked b) =
      M3zmul (a.system.A : ZMod n) (a.system.B : ZMod n) (a.system.C : ZMod n)
        (a.system.D : ZMod n) (a.system.E : ZMod n) (M3cast n a) (M3cast n b) := by
  simp only [M3cast, M3zmul, M3Element.mulUnchecked, M3Element.init, ← hn,
    ZMod.intCast_mod, Prod.mk.injEq]
  refine ⟨?_, ?_, ?_⟩ <;> push_cast <;> ring

theorem M3mulUnchecked_system (a b : M3Element) : (a.mulUnchecked b).system = a.system := rfl

/-- The embedding `M3iota` is multiplicative: the dimension-3 product of two
embedded pairs is the embedding of the pair product. -/
theorem M3iota_mul (s : M3System) (n : Nat) (x1 x2 : ZMod n)
    (p q : PairAlg n (M3w s n x1 x2) (M3q0 s n x1 x2)) :
    M3zmul (s.A : ZMod n) (s.B : ZMod n) (s.C : ZMod n) (s.D : ZMod n) (s.E : ZMod n)
      (M3iota p) (M3iota q) = M3iota (p * q) := by
  simp only [M3zmul, M3iota, PairAlg.mul_c, PairAlg.mul_l, M3w, M3q0, Prod.mk.injEq]
  refine ⟨by ring, by ring, by ring⟩

/-- Simulation of the square-and-multiply loop inside the pair algebra. -/
theorem M3powAux_sim (s : M3System) (n : Nat) (hn : (n : Int) = s.modulus)
    (x1 x2 : ZMod n) (k : Nat) :
    ∀ (r b : M3Element) (p q : PairAlg n (M3w s n x1 x2) (M3q0 s n x1 x2)),
      r.system = s → b.system = s →
      M3cast n r = M3iota p → M3cast n b = M3iota q →
      (M3Element.powAux r b k).system = s ∧
      M3cast n (M3Element.powAux r b k) = M3iota (sqmulAux p q k) := by
  induction k using Nat.strong_induction_on with
  | _ k ih =>
    intro r b p q hr hb hcr hcb
    rw [M3Element.powAux, sqmulAux]
    by_cases h : k = 0
    · rw [dif_pos h, dif_pos h]
      exact ⟨hr, hcr⟩
    · rw [dif_neg h, dif_neg h]
      have hlt : k / 2 < k := Nat.div_lt_self (Nat.pos_of_ne_zero h) (by norm_num)
      have hcb2 : M3cast n (b.mulUnchecked b) = M3iota (q * q) := by
        rw [M3cast_mulUnchecked n b b (by rw [hb, hn]), hcb, hb, M3iota_mul]
      by_cases hp : k % 2 = 1
      · rw [if_pos hp, if_pos hp]
        have hcr2 : M3cast n (r.mulUnchecked b) = M3iota (p * q) := by
          rw [M3cast_mulUnchecked n r b (by rw [hr, hn]), hcr, hcb, hr, M3iota_mul]
        exact ih _ hlt _ _ _ _ hr hb hcr2 hcb2
      · rw [if_neg hp, if_neg hp]
        exact ih _ hlt _ _ _ _ hr hb hcr hcb2

/-- All components of an element lie in `[0, N)` for its system's modulus. -/
def M3InRange (e : M3Element) : Prop :=
  0 ≤ e.v0 ∧ e.v0 < e.system.modulus ∧ 0 ≤ e.v1 ∧ e.v1 < e.system.modulus ∧
    0 ≤ e.v2 ∧ e.v2 < e.system.modulus

instance (e : M3Element) : Decidable (M3InRange e) := by
  unfold M3InRange; infer_instance

theorem M3init_inRange (v : Int × Int × Int) (s : M3System) (h : 0 < s.modulus) :
    M3InRange (M3Element.init v s) :=
  ⟨Int.emod_nonneg _ (by omega), Int.emod_lt_of_pos _ h,
   Int.emod_nonneg _ (by omega), Int.emod_lt_of_pos _ h,
   Int.emod_nonneg _ (by omega), Int.emod_lt_of_pos _ h⟩

theorem M3mulUnchecked_inRange (a b : M3Element) (h : 0 < a.system.modulus) :
    M3InRange (a.mulUnchecked b) :=
  M3init_inRange _ _ h

theorem M3powAux_inRange (k : Nat) :
    ∀ (r b : M3Element), 0 < r.system.modulus → M3InRange r →
      M3InRange (M3Element.powAux r b k) := by
  induction k using Nat.strong_induction_on with
  | _ k ih =>
    intro r b h hr
    rw [M3Element.powAux]
    by_cases hk : k = 0
    · rw [dif_pos hk]; exact hr
    · rw [dif_neg hk]
      have hlt : k / 2 < k := Nat.div_lt_self (Nat.pos_of_ne_zero hk) (by norm_num)
      by_cases hp : k % 2 = 1
      · rw [if_pos hp]
        exact ih _ hlt _ _ h (M3mulUnchecked_inRange r b h)
      · rw [if_neg hp]
        exact ih _ hlt _ _ h hr

theorem M3specNaivePow_system (a : M3Element) (k : Nat) :
    (a.specNaivePow k).system = a.system := by
  induction k with
  | zero => rfl
  | succ k ih => rw [M3Element.specNaivePow, M3mulUnchecked_system, ih]

theorem M3specNaivePow_inRange (a : M3Element) (k : Nat) (h : 0 < a.system.modulus) :
    M3InRange (a.specNaivePow k) := by
  cases k with
  | zero => exact M3init_inRange _ _ h
  | succ k =>
    rw [M3Element.specNaivePow]
    exact M3mulUnchecked_inRange _ _ (by rw [M3specNaivePow_system]; exact h)

/-- Simulation of the naive left-fold inside the pair algebra. -/
theorem M3naive_sim (s : M3System) (n : Nat) (hn : (n : Int) = s.modulus)
    (a : M3Element) (ha : a.system = s) (k : Nat) :
    M3cast n (a.specNaivePow k) =
      M3iota ((⟨(a.v0 : ZMod n), 1⟩ :
        PairAlg n (M3w s n (a.v1 : ZMod n) (a.v2 : ZMod n))
          (M3q0 s n (a.v1 : ZMod n) (a.v2 : ZMod n))) ^ k) := by
  induction k with
  | zero =>
    simp [M3Element.specNaivePow, M3cast, M3Element.init, M3iota, Int.zero_emod]
  | succ k ih =>
    rw [M3Element.specNaivePow,
      M3cast_mulUnchecked n _ a (by rw [M3specNaivePow_system, ha, hn]), ih,
      M3specNaivePow_system, ha]
    have hca : M3cast n a =
        M3iota (⟨(a.v0 : ZMod n), 1⟩ :
          PairAlg n (M3w s n (a.v1 : ZMod n) (a.v2 : ZMod n))
            (M3q0 s n (a.v1 : ZMod n) (a.v2 : ZMod n))) := by
      simp [M3cast, M3iota]
    rw [hca, M3iota_mul, ← pow_succ]

/-- Elements with the same system, components in range, and equal `ZMod`
casts are equal. -/
theorem M3eq_of_cast (n : Nat) (a b : M3Element) (hsys : a.system = b.system)
    (hn : (n : Int) = a.system.modulus)
    (hra : M3InRange a) (hrb : M3InRange b)
    (hc : M3cast n a = M3cast n b) : a = b := by
  obtain ⟨h0, h1, h2, h3, h4, h5⟩ := hra
  obtain ⟨g0, g1, g2, g3, g4, g5⟩ := hrb
  rw [← hsys] at g1 g3 g5
  have c0 : ((a.v0 : ZMod n)) = (b.v0 : ZMod n) := congrArg Prod.fst hc
  have c1 : ((a.v1 : ZMod n)) = (b.v1 : ZMod n) := congrArg (fun t => t.2.1) hc
  have c2 : ((a.v2 : ZMod n)) = (b.v2 : ZMod n) := congrArg (fun t => t.2.2) hc
  ext
  · exact int_eq_of_zmodCast_eq n _ _ h0 (hn ▸ h1) g0 (hn ▸ g1) c0
  · exact int_eq_of_zmodCast_eq n _ _ h2 (hn ▸ h3) g2 (hn ▸ g3) c1
  · exact int_eq_of_zmodCast_eq n _ _ h4 (hn ▸ h5) g4 (hn ▸ g5) c2
  · exact hsys

/-- Master lemma, dimension 3: square-and-multiply exponentiation agrees with
the naive left-fold reference for every exponent. -/
theorem M3pow_eq_specNaivePow (a : M3Element) (h2 : 2 ≤ a.system.modulus) (k : Nat) :
    a.pow k = a.specNaivePow k := by
  by_cases hk : k = 0
  · subst hk; rfl
  · have h0 : (0 : Int) < a.system.modulus := by omega
    set n := a.system.modulus.toNat with hndef
    have hn : (n : Int) = a.system.modulus := Int.toNat_of_nonneg (by omega)
    have hpow : a.pow k = M3Element.powAux (M3Element.init (0, 0, 0) a.system) a k := by
      simp [M3Element.pow, hk]
    set q : PairAlg n (M3w a.system n (a.v1 : ZMod n) (a.v2 : ZMod n))
        (M3q0 a.system n (a.v1 : ZMod n) (a.v2 : ZMod n)) := ⟨(a.v0 : ZMod n), 1⟩ with hq
    have hce : M3cast n (M3Element.init (0, 0, 0) a.system) =
        M3iota (1 : PairAlg n (M3w a.system n (a.v1 : ZMod n) (a.v2 : ZMod n))
          (M3q0 a.system n (a.v1 : ZMod n) (a.v2 : ZMod n))) := by
      simp [M3cast, M3Element.init, M3iota, Int.zero_emod]
    have hca : M3cast n a = M3iota q := by
      simp [M3cast, M3iota, hq]
    obtain ⟨hsys, hcast⟩ := M3powAux_sim a.system n hn (a.v1 : ZMod n) (a.v2 : ZMod n) k
      (M3Element.init (0, 0, 0) a.system) a 1 q rfl rfl hce hca
    rw [sqmulAux_eq, one_mul] at hcast
    have hnaive := M3naive_sim a.system n hn a rfl k
    refine M3eq_of_cast n _ _ ?_ ?_ ?_ ?_ ?_
    · rw [hpow, hsys, M3specNaivePow_system]
    · rw [hpow, hsys]; exact hn
    · rw [hpow]
      exact M3powAux_inRange k _ a h0 (M3init_inRange _ _ h0)
    · exact M3specNaivePow_inRange a k h0
    · rw [hpow, hcast, hnaive]

/-! ### Dimension-4 bridge to `ZMod n` -/

/-- Componentwise cast of an `M4Element`'s vector into `ZMod n`. -/
def M4cast (n : Nat) (e : M4Element) : ZMod n × ZMod n × ZMod n × ZMod n :=
  ((e.v0 : ZMod n), (e.v1 : ZMod n), (e.v2 : ZMod n), (e.v3 : ZMod n))

/-- The dimension-4 multiplication formulas transported to `ZMod n`. -/
def M4zmul {n : Nat} (cA cB cC cD cE cF cG cH cI : ZMod n)
    (a b : ZMod n × ZMod n × ZMod n × ZMod n) : ZMod n × ZMod n × ZMod n × ZMod n :=
  (a.1 + b.1 + a.1 * b.1 + cA * a.2.1 * b.2.1 + cE * a.2.2.2 * b.2.1
     + cB * a.2.2.1 * b.2.2.1 + cD * a.2.1 * b.2.2.1 + cF * a.2.2.2 * b.2.2.1
     + cC * a.2.2.2 * b.2.2.2,
   a.2.1 + b.2.1 + a.2.1 * b.1 + a.1 * b.2.1 + cG * a.2.1 * b.2.1
     + cH * a.2.1 * b.2.2.1 + cI * a.2.1 * b.2.2.2,
   a.2.2.1 + b.2.2.1 + a.2.2.1 * b.1 + a.1 * b.2.2.1 + cG * a.2.2.1 * b.2.1
     + cH * a.2.2.1 * b.2.2.1 + cI * a.2.2.1 * b.2.2.2,
   a.2.2.2 + b.2.2.2 + a.2.2.2 * b.1 + a.1 * b.2.2.2 + cG * a.2.2.2 * b.2.1
     + cH * a.2.2.2 * b.2.2.1 + cI * a.2.2.2 * b.2.2.2)

/-- Pair-algebra parameter `w` for dimension 4. -/
def M4w (s : M4System) (n : Nat) (x1 x2 x3 : ZMod n) : ZMod n :=
  (s.G : ZMod n) * x1 + (s.H : ZMod n) * x2 + (s.I : ZMod n) * x3

/-- Pair-algebra parameter `q0` for dimension 4. -/
def M4q0 (s : M4System) (n : Nat) (x1 x2 x3 : ZMod n) : ZMod n :=
  (s.A : ZMod n) * x1 * x1 + (s.E : ZMod n) * x3 * x1 + (s.B : ZMod n) * x2 * x2
    + (s.D : ZMod n) * x1 * x2 + (s.F : ZMod n) * x3 * x2 + (s.C : ZMod n) * x3 * x3

/-- Embedding of the scalar-pair algebra into dimension-4 vectors along the
direction `(x1, x2, x3)`. -/
def M4iota {s : M4System} {n : Nat} {x1 x2 x3 : ZMod n}
    (p : PairAlg n (M4w s n x1 x2 x3) (M4q0 s n x1 x2 x3)) :
    ZMod n × ZMod n × ZMod n × ZMod n :=
  (p.c, p.l * x1, p.l * x2, p.l * x3)

theorem M4cast_mulUnchecked (n : Nat) (a b : M4Element)
    (hn : (n : Int) = a.system.modulus) :
    M4cast n (a.mulUnchecked b) =
      M4zmul (a.system.A : ZMod n) (a.system.B : ZMod n) (a.system.C : ZMod n)
        (a.system.D : ZMod n) (a.system.E : ZMod n) (a.system.F : ZMod n)
        (a.system.G : ZMod n) (a.system.H : ZMod n) (a.system.I : ZMod n)
        (M4cast n a) (M4cast n b) := by
  simp only [M4cast, M4zmul, M4Element.mulUnchecked, M4Element.init, ← hn,
    ZMod.intCast_mod, Prod.mk.injEq]
  refine ⟨?_, ?_, ?_, ?_⟩ <;> push_cast <;> ring

theorem M4mulUnchecked_system (a b : M4Element) : (a.mulUnchecked b).system = a.system := rfl

/-- The embedding `M4iota` is multiplicative. -/
theorem M4iota_mul (s : M4System) (n : Nat) (x1 x2 x3 : ZMod n)
    (p q : PairAlg n (M4w s n x1 x2 x3) (M4q0 s n x1 x2 x3)) :
    M4zmul (s.A : ZMod n) (s.B : ZMod n) (s.C : ZMod n) (s.D : ZMod n) (s.E : ZMod n)
      (s.F : ZMod n) (s.G : ZMod n) (s.H : ZMod n) (s.I : ZMod n)
      (M4iota p) (M4iota q) = M4iota (p * q) := by
  simp only [M4zmul, M4iota, PairAlg.mul_c, PairAlg.mul_l, M4w, M4q0, Prod.mk.injEq]
  refine ⟨by ring, by ring, by ring, by ring⟩

/-- Simulation of the square-and-multiply loop inside the pair algebra,
dimension 4. -/
theorem M4powAux_sim (s : M4System) (n : Nat) (hn : (n : Int) = s.modulus)
    (x1 x2 x3 : ZMod n) (k : Nat) :
    ∀ (r b : M4Element) (p q : PairAlg n (M4w s n x1 x2 x3) (M4q0 s n x1 x2 x3)),
      r.system = s → b.system = s →
      M4cast n r = M4iota p → M4cast n b = M4iota q →
      (M4Element.powAux r b k).system = s ∧
      M4cast n (M4Element.powAux r b k) = M4iota (sqmulAux p q k) := by
  induction k using Nat.strong_induction_on with
  | _ k ih =>
    intro r b p q hr hb hcr hcb
    rw [M4Element.powAux, sqmulAux]
    by_cases h : k = 0
    · rw [dif_pos h, dif_pos h]
      exact ⟨hr, hcr⟩
    · rw [dif_neg h, dif_neg h]
      have hlt : k / 2 < k := Nat.div_lt_self (Nat.pos_of_ne_zero h) (by norm_num)
      have hcb2 : M4cast n (b.mulUnchecked b) = M4iota (q * q) := by
        rw [M4cast_mulUnchecked n b b (by rw [hb, hn]), hcb, hb, M4iota_mul]
      by_cases hp : k % 2 = 1
      · rw [if_pos hp, if_pos hp]
        have hcr2 : M4cast n (r.mulUnchecked b) = M4iota (p * q) := by
          rw [M4cast_mulUnchecked n r b (by rw [hr, hn]), hcr, hcb, hr, M4iota_mul]
        exact ih _ hlt _ _ _ _ hr hb hcr2 hcb2
      · rw [if_neg hp, if_neg hp]
        exact ih _ hlt _ _ _ _ hr hb hcr hcb2

/-- All components of a dimension-4 element lie in `[0, N)`. -/
def M4InRange (e : M4Element) : Prop :=
  0 ≤ e.v0 ∧ e.v0 < e.system.modulus ∧ 0 ≤ e.v1 ∧ e.v1 < e.system.modulus ∧
    0 ≤ e.v2 ∧ e.v2 < e.system.modulus ∧ 0 ≤ e.v3 ∧ e.v3 < e.system.modulus

instance (e : M4Element) : Decidable (M4InRange e) := by
  unfold M4InRange; infer_instance

theorem M4init_inRange (v : Int × Int × Int × Int) (s : M4System) (h : 0 < s.modulus) :
    M4InRange (M4Element.init v s) :=
  ⟨Int.emod_nonneg _ (by omega), Int.emod_lt_of_pos _ h,
   Int.emod_nonneg _ (by omega), Int.emod_lt_of_pos _ h,
   Int.emod_nonneg _ (by omega), Int.emod_lt_of_pos _ h,
   Int.emod_nonneg _ (by omega), Int.emod_lt_of_pos _ h⟩

theorem M4mulUnchecked_inRange (a b : M4Element) (h : 0 < a.system.modulus) :
    M4InRange (a.mulUnchecked b) :=
  M4init_inRange _ _ h

theorem M4powAux_inRange (k : Nat) :
    ∀ (r b : M4Element), 0 < r.system.modulus → M4InRange r →
      M4InRange (M4Element.powAux r b k) := by
  induction k using Nat.strong_induction_on with
  | _ k ih =>
    intro r b h hr
    rw [M4Element.powAux]
    by_cases hk : k = 0
    · rw [dif_pos hk]; exact hr
    · rw [dif_neg hk]
      have hlt : k / 2 < k := Nat.div_lt_self (Nat.pos_of_ne_zero hk) (by norm_num)
      by_cases hp : k % 2 = 1
      · rw [if_pos hp]
        exact ih _ hlt _ _ h (M4mulUnchecked_inRange r b h)
      · rw [if_neg hp]
        exact ih _ hlt _ _ h hr

theorem M4specNaivePow_system (a : M4Element) (k : Nat) :
    (a.specNaivePow k).system = a.system := by
  induction k with
  | zero => rfl
  | succ k ih => rw [M4Element.specNaivePow, M4mulUnchecked_system, ih]

theorem M4specNaivePow_inRange (a : M4Element) (k : Nat) (h : 0 < a.system.modulus) :
    M4InRange (a.specNaivePow k) := by
  cases k with
  | zero => exact M4init_inRange _ _ h
  | succ k =>
    rw [M4Element.specNaivePow]
    exact M4mulUnchecked_inRange _ _ (by rw [M4specNaivePow_system]; exact h)

/-- Simulation of the naive left-fold inside the pair algebra, dimension 4. -/
theorem M4naive_sim (s : M4System) (n : Nat) (hn : (n : Int) = s.modulus)
    (a : M4Element) (ha : a.system = s) (k : Nat) :
    M4cast n (a.specNaivePow k) =
      M4iota ((⟨(a.v0 : ZMod n), 1⟩ :
        PairAlg n (M4w s n (a.v1 : ZMod n) (a.v2 : ZMod n) (a.v3 : ZMod n))
          (M4q0 s n (a.v1 : ZMod n) (a.v2 : ZMod n) (a.v3 : ZMod n))) ^ k) := by
  induction k with
  | zero =>
    simp [M4Element.specNaivePow, M4cast, M4Element.init, M4iota, Int.zero_emod]
  | succ k ih =>
    rw [M4Element.specNaivePow,
      M4cast_mulUnchecked n _ a (by rw [M4specNaivePow_system, ha, hn]), ih,
      M4specNaivePow_system, ha]
    have hca : M4cast n a =
        M4iota (⟨(a.v0 : ZMod n), 1⟩ :
          PairAlg n (M4w s n (a.v1 : ZMod n) (a.v2 : ZMod n) (a.v3 : ZMod n))
            (M4q0 s n (a.v1 : ZMod n) (a.v2 : ZMod n) (a.v3 : ZMod n))) := by
      simp [M4cast, M4iota]
    rw [hca, M4iota_mul, ← pow_succ]

/-- Dimension-4 elements with the same system, components in range, and equal
`ZMod` casts are equal. -/
theorem M4eq_of_cast (n : Nat) (a b : M4Element) (hsys : a.system = b.system)
    (hn : (n : Int) = a.system.modulus)
    (hra : M4InRange a) (hrb : M4InRange b)
    (hc : M4cast n a = M4cast n b) : a = b := by
  obtain ⟨h0, h1, h2, h3, h4, h5, h6, h7⟩ := hra
  obtain ⟨g0, g1, g2, g3, g4, g5, g6, g7⟩ := hrb
  rw [← hsys] at g1 g3 g5 g7
  have c0 : ((a.v0 : ZMod n)) = (b.v0 : ZMod n) := congrArg Prod.fst hc
  have c1 : ((a.v1 : ZMod n)) = (b.v1 : ZMod n) := congrArg (fun t => t.2.1) hc
  have c2 : ((a.v2 : ZMod n)) = (b.v2 : ZMod n) := congrArg (fun t => t.2.2.1) hc
  have c3 : ((a.v3 : ZMod n)) = (b.v3 : ZMod n) := congrArg (fun t => t.2.2.2) hc
  ext
  · exact int_eq_of_zmodCast_eq n _ _ h0 (hn ▸ h1) g0 (hn ▸ g1) c0
  · exact int_eq_of_zmodCast_eq n _ _ h2 (hn ▸ h3) g2 (hn ▸ g3) c1
  · exact int_eq_of_zmodCast_eq n _ _ h4 (hn ▸ h5) g4 (hn ▸ g5) c2
  · exact int_eq_of_zmodCast_eq n _ _ h6 (hn ▸ h7) g6 (hn ▸ g7) c3
  · exact hsys

/-- Master lemma, dimension 4: square-and-multiply exponentiation agrees with
the naive left-fold reference for every exponent. -/
theorem M4pow_eq_specNaivePow (a : M4Element) (h2 : 2 ≤ a.system.modulus) (k : Nat) :
    a.pow k = a.specNaivePow k := by
  by_cases hk : k = 0
  · subst hk; rfl
  · have h0 : (0 : Int) < a.system.modulus := by omega
    set n := a.system.modulus.toNat with hndef
    have hn : (n : Int) = a.system.modulus := Int.toNat_of_nonneg (by omega)
    have hpow : a.pow k = M4Element.powAux (M4Element.init (0, 0, 0, 0) a.system) a k := by
      simp [M4Element.pow, hk]
    set q : PairAlg n (M4w a.system n (a.v1 : ZMod n) (a.v2 : ZMod n) (a.v3 : ZMod n))
        (M4q0 a.system n (a.v1 : ZMod n) (a.v2 : ZMod n) (a.v3 : ZMod n)) :=
      ⟨(a.v0 : ZMod n), 1⟩ with hq
    have hce : M4cast n (M4Element.init (0, 0, 0, 0) a.system) =
        M4iota (1 : PairAlg n (M4w a.system n (a.v1 : ZMod n) (a.v2 : ZMod n) (a.v3 : ZMod n))
          (M4q0 a.system n (a.v1 : ZMod n) (a.v2 : ZMod n) (a.v3 : ZMod n))) := by
      simp [M4cast, M4Element.init, M4iota, Int.zero_emod]
    have hca : M4cast n a = M4iota q := by
      simp [M4cast, M4iota, hq]
    obtain ⟨hsys, hcast⟩ := M4powAux_sim a.system n hn
      (a.v1 : ZMod n) (a.v2 : ZMod n) (a.v3 : ZMod n) k
      (M4Element.init (0, 0, 0, 0) a.system) a 1 q rfl rfl hce hca
    rw [sqmulAux_eq, one_mul] at hcast
    have hnaive := M4naive_sim a.system n hn a rfl k
    refine M4eq_of_cast n _ _ ?_ ?_ ?_ ?_ ?_
    · rw [hpow, hsys, M4specNaivePow_system]
    · rw [hpow, hsys]; exact hn
    · rw [hpow]
      exact M4powAux_inRange k _ a h0 (M4init_inRange _ _ h0)
    · exact M4specNaivePow_inRange a k h0
    · rw [hpow, hcast, hnaive]

/-! ### Shared helper lemmas and concrete example systems -/

theorem emod_emod_self (x N : Int) : x % N % N = x % N :=
  Int.emod_emod_of_dvd x dvd_rfl

theorem add_emod_right_emod (x y N : Int) : (x + y % N) % N = (x + y) % N := by
  conv_lhs => rw [Int.add_emod, emod_emod_self, ← Int.add_emod]

theorem M3mulUnchecked_zero_right (s : M3System) (v : Int × Int × Int) :
    (M3Element.init v s).mulUnchecked (M3Element.init (0, 0, 0) s) =
      M3Element.init v s := by
  ext <;> simp [M3Element.mulUnchecked, M3Element.init, Int.zero_emod, emod_emod_self]

theorem M3mulUnchecked_zero_left (s : M3System) (v : Int × Int × Int) :
    (M3Element.init (0, 0, 0) s).mulUnchecked (M3Element.init v s) =
      M3Element.init v s := by
  ext <;> simp [M3Element.mulUnchecked, M3Element.init, Int.zero_emod, emod_emod_self]

theorem M4mulUnchecked_zero_right (s : M4System) (v : Int × Int × Int × Int) :
    (M4Element.init v s).mulUnchecked (M4Element.init (0, 0, 0, 0) s) =
      M4Element.init v s := by
  ext <;> simp [M4Element.mulUnchecked, M4Element.init, Int.zero_emod, emod_emod_self]

theorem M4mulUnchecked_zero_left (s : M4System) (v : Int × Int × Int × Int) :
    (M4Element.init (0, 0, 0, 0) s).mulUnchecked (M4Element.init v s) =
      M4Element.init v s := by
  ext <;> simp [M4Element.mulUnchecked, M4Element.init, Int.zero_emod, emod_emod_self]

/-- Example system: the spec's dimension-3 scenario `A=1, B=2, C=3, D=1, E=2`,
modulus `7`. -/
def exS3 : M3System := { A := 1, B := 2, C := 3, D := 1, E := 2, modulus := 7, oid := 0 }

/-- A second dimension-3 system instance with constants identical to `exS3`
but a different object identity. -/
def exS3b : M3System := { A := 1, B := 2, C := 3, D := 1, E := 2, modulus := 7, oid := 1 }

def exA3 : M3Element := M3Element.init (1, 2, 3) exS3

def exB3 : M3Element := M3Element.init (4, 5, 6) exS3

/-- Example dimension-4 system. -/
def exS4 : M4System :=
  { A := 1, B := 2, C := 3, D := 4, E := 5, F := 6, G := 7, H := 8, I := 9,
    modulus := 11, oid := 0 }

/-- A second dimension-4 system instance with constants identical to `exS4`
but a different object identity. -/
def exS4b : M4System :=
  { A := 1, B := 2, C := 3, D := 4, E := 5, F := 6, G := 7, H := 8, I := 9,
    modulus := 11, oid := 1 }

def exA4 : M4Element := M4Element.init (1, 2, 3, 4) exS4

def exB4 : M4Element := M4Element.init (5, 6, 7, 8) exS4

/-! ### Claim theorems -/

/-- C1: for every element `a` of an `M3System` or `M4System` (modulus ≥ 2)
and every `k` with `0 ≤ k ≤ 20`, `power(a, k)` computed by the
square-and-multiply algorithm (`__pow__`) equals the naive reference result:
an accumulator initialized to the all-zero vector and left-multiplied by `a`
exactly `k` times in strict sequence. -/
theorem claim_C1_pow_matches_naive_reference :
    (∀ (a : M3Element) (k : Nat), k ≤ 20 → 2 ≤ a.system.modulus →
      a.pow k = a.specNaivePow k) ∧
    (∀ (a : M4Element) (k : Nat), k ≤ 20 → 2 ≤ a.system.modulus →
      a.pow k = a.specNaivePow k) :=
  ⟨fun a _ _ h2 => M3pow_eq_specNaivePow a h2 _,
   fun a _ _ h2 => M4pow_eq_specNaivePow a h2 _⟩

/-- C1 witness: the refinement instantiated at concrete elements and `k = 5`. -/
theorem claim_C1_witness :
    ((5 : Nat) ≤ 20 ∧ 2 ≤ exA3.system.modulus ∧ exA3.pow 5 = exA3.specNaivePow 5) ∧
    ((5 : Nat) ≤ 20 ∧ 2 ≤ exA4.system.modulus ∧ exA4.pow 5 = exA4.specNaivePow 5) :=
  ⟨⟨by decide, by decide, claim_C1_pow_matches_naive_reference.1 exA3 5 (by decide) (by decide)⟩,
   ⟨by decide, by decide, claim_C1_pow_matches_naive_reference.2 exA4 5 (by decide) (by decide)⟩⟩

/-- C2: every non-leading component `i` of `multiply(a, b)` equals
`(a_i + b_i + a_i*b0 + a0*b_i + weighted bilinear terms) mod N`, where the
weighted terms are `a_i` times non-leading components of `b` only; for
dimension 4 the same constants `G, H, I` weight `a_i*b1, a_i*b2, a_i*b3` in
all of components 1, 2, 3, and for dimension 3 each non-leading component
uses the pairing `D*a_i*b1 + E*a_i*b2`. -/
theorem claim_C2_nonleading_component_formula :
    (∀ (a b r : M3Element), a.mul b = some r →
      r.v1 = (a.v1 + b.v1 + a.v1 * b.v0 + a.v0 * b.v1
        + (a.system.D * a.v1 * b.v1 + a.system.E * a.v1 * b.v2)) % a.system.modulus ∧
      r.v2 = (a.v2 + b.v2 + a.v2 * b.v0 + a.v0 * b.v2
        + (a.system.D * a.v2 * b.v1 + a.system.E * a.v2 * b.v2)) % a.system.modulus) ∧
    (∀ (a b r : M4Element), a.mul b = some r →
      r.v1 = (a.v1 + b.v1 + a.v1 * b.v0 + a.v0 * b.v1
        + (a.system.G * a.v1 * b.v1 + a.system.H * a.v1 * b.v2
            + a.system.I * a.v1 * b.v3)) % a.system.modulus ∧
      r.v2 = (a.v2 + b.v2 + a.v2 * b.v0 + a.v0 * b.v2
        + (a.system.G * a.v2 * b.v1 + a.system.H * a.v2 * b.v2
            + a.system.I * a.v2 * b.v3)) % a.system.modulus ∧
      r.v3 = (a.v3 + b.v3 + a.v3 * b.v0 + a.v0 * b.v3
        + (a.system.G * a.v3 * b.v1 + a.system.H * a.v3 * b.v2
            + a.system.I * a.v3 * b.v3)) % a.system.modulus) := by
  constructor
  · intro a b r h
    rw [M3Element.mul] at h
    split at h
    · injection h with h
      subst h
      refine ⟨?_, ?_⟩ <;>
        · show _ % _ % _ = _
          rw [emod_emod_self]
          congr 1
          ring
    · exact absurd h (by simp)
  · intro a b r h
    rw [M4Element.mul] at h
    split at h
    · injection h with h
      subst h
      refine ⟨?_, ?_, ?_⟩ <;>
        · show _ % _ % _ = _
          rw [emod_emod_self]
          congr 1
          ring
    · exact absurd h (by simp)

/-- C2 witness: the component formulas instantiated at concrete elements. -/
theorem claim_C2_witness :
    (exA3.mul exB3 = some (exA3.mulUnchecked exB3) ∧
      (exA3.mulUnchecked exB3).v1 =
        (exA3.v1 + exB3.v1 + exA3.v1 * exB3.v0 + exA3.v0 * exB3.v1
          + (exA3.system.D * exA3.v1 * exB3.v1
              + exA3.system.E * exA3.v1 * exB3.v2)) % exA3.system.modulus) ∧
    (exA4.mul exB4 = some (exA4.mulUnchecked exB4) ∧
      (exA4.mulUnchecked exB4).v3 =
        (exA4.v3 + exB4.v3 + exA4.v3 * exB4.v0 + exA4.v0 * exB4.v3
          + (exA4.system.G * exA4.v3 * exB4.v1 + exA4.system.H * exA4.v3 * exB4.v2
              + exA4.system.I * exA4.v3 * exB4.v3)) % exA4.system.modulus) :=
  ⟨⟨by decide, (claim_C2_nonleading_component_formula.1 exA3 exB3 _ (by decide)).1⟩,
   ⟨by decide, (claim_C2_nonleading_component_formula.2 exA4 exB4 _ (by decide)).2.2⟩⟩

/-- C3: for every system with integer modulus `N ≥ 2`, every element produced
by construction (from any integer vector, including negative entries),
addition, subtraction, negation, multiplication, or exponentiation has every
component in `[0, N)` — floor-mod semantics, never symmetric-around-zero. -/
theorem claim_C3_reduction_invariant :
    (∀ (s : M3System) (v : Int × Int × Int), 2 ≤ s.modulus →
      M3InRange (M3Element.init v s)) ∧
    (∀ (a b r : M3Element), 2 ≤ a.system.modulus → a.add b = some r → M3InRange r) ∧
    (∀ (a b r : M3Element), 2 ≤ a.system.modulus → a.sub b = some r → M3InRange r) ∧
    (∀ (a : M3Element), 2 ≤ a.system.modulus → M3InRange a.neg) ∧
    (∀ (a b r : M3Element), 2 ≤ a.system.modulus → a.mul b = some r → M3InRange r) ∧
    (∀ (a : M3Element) (k : Nat), 2 ≤ a.system.modulus → M3InRange (a.pow k)) ∧
    (∀ (s : M4System) (v : Int × Int × Int × Int), 2 ≤ s.modulus →
      M4InRange (M4Element.init v s)) ∧
    (∀ (a b r : M4Element), 2 ≤ a.system.modulus → a.add b = some r → M4InRange r) ∧
    (∀ (a b r : M4Element), 2 ≤ a.system.modulus → a.sub b = some r → M4InRange r) ∧
    (∀ (a : M4Element), 2 ≤ a.system.modulus → M4InRange a.neg) ∧
    (∀ (a b r : M4Element), 2 ≤ a.system.modulus → a.mul b = some r → M4InRange r) ∧
    (∀ (a : M4Element) (k : Nat), 2 ≤ a.system.modulus → M4InRange (a.pow k)) := by
  refine ⟨?_, ?_, ?_, ?_, ?_, ?_, ?_, ?_, ?_, ?_, ?_, ?_⟩
  · intro s v h2
    exact M3init_inRange v s (by omega)
  · intro a b r h2 h
    rw [M3Element.add] at h
    split at h
    · injection h with h
      subst h
      exact M3init_inRange _ _ (by omega)
    · exact absurd h (by simp)
  · intro a b r h2 h
    rw [M3Element.sub] at h
    split at h
    · injection h with h
      subst h
      exact M3init_inRange _ _ (by omega)
    · exact absurd h (by simp)
  · intro a h2
    exact M3init_inRange _ _ (by omega)
  · intro a b r h2 h
    rw [M3Element.mul] at h
    split at h
    · injection h with h
      subst h
      exact M3mulUnchecked_inRange a b (by omega)
    · exact absurd h (by simp)
  · intro a k h2
    by_cases hk : k = 0
    · simp only [M3Element.pow, hk, if_pos rfl]
      exact M3init_inRange _ _ (by omega)
    · simp only [M3Element.pow, if_neg hk]
      exact M3powAux_inRange k _ a (show (0 : Int) < a.system.modulus by omega)
        (M3init_inRange _ _ (by omega))
  · intro s v h2
    exact M4init_inRange v s (by omega)
  · intro a b r h2 h
    rw [M4Element.add] at h
    split at h
    · injection h with h
      subst h
      exact M4init_inRange _ _ (by omega)
    · exact absurd h (by simp)
  · intro a b r h2 h
    rw [M4Element.sub] at h
    split at h
    · injection h with h
      subst h
      exact M4init_inRange _ _ (by omega)
    · exact absurd h (by simp)
  · intro a h2
    exact M4init_inRange _ _ (by omega)
  · intro a b r h2 h
    rw [M4Element.mul] at h
    split at h
    · injection h with h
      subst h
      exact M4mulUnchecked_inRange a b (by omega)
    · exact absurd h (by simp)
  · intro a k h2
    by_cases hk : k = 0
    · simp only [M4Element.pow, hk, if_pos rfl]
      exact M4init_inRange _ _ (by omega)
    · simp only [M4Element.pow, if_neg hk]
      exact M4powAux_inRange k _ a (show (0 : Int) < a.system.modulus by omega)
        (M4init_inRange _ _ (by omega))

/-- C3 witness: the invariant instantiated at concrete inputs, including a
negative entry (floor mod, not symmetric mod). -/
theorem claim_C3_witness :
    (2 ≤ exS3.modulus ∧ M3InRange (M3Element.init (-5, -1, 9) exS3)) ∧
    (2 ≤ exA3.system.modulus ∧ M3InRange (exA3.pow 6)) ∧
    (2 ≤ exS4.modulus ∧ M4InRange (M4Element.init (-5, -1, 9, -23) exS4)) ∧
    (2 ≤ exA4.system.modulus ∧ M4InRange (exA4.pow 6)) :=
  ⟨⟨by decide, claim_C3_reduction_invariant.1 exS3 (-5, -1, 9) (by decide)⟩,
   ⟨by decide, (claim_C3_reduction_invariant.2.2.2.2.2.1) exA3 6 (by decide)⟩,
   ⟨by decide, (claim_C3_reduction_invariant.2.2.2.2.2.2.1) exS4 (-5, -1, 9, -23) (by decide)⟩,
   ⟨by decide, (claim_C3_reduction_invariant.2.2.2.2.2.2.2.2.2.2.2) exA4 6 (by decide)⟩⟩

/-- C4: for every choice of structure constants and every modulus `N ≥ 2`,
the all-zero element `e` is a two-sided multiplicative identity: for every
element `a` of the same system, `multiply(a, e) == a` and
`multiply(e, a) == a`.  Elements of a system are exactly the `init`-images
(every operation reconstructs through `__init__`). -/
theorem claim_C4_zero_is_two_sided_identity :
    (∀ (s : M3System) (v : Int × Int × Int), 2 ≤ s.modulus →
      (M3Element.init v s).mul (M3Element.init (0, 0, 0) s) = some (M3Element.init v s) ∧
      (M3Element.init (0, 0, 0) s).mul (M3Element.init v s) = some (M3Element.init v s)) ∧
    (∀ (s : M4System) (v : Int × Int × Int × Int), 2 ≤ s.modulus →
      (M4Element.init v s).mul (M4Element.init (0, 0, 0, 0) s) = some (M4Element.init v s) ∧
      (M4Element.init (0, 0, 0, 0) s).mul (M4Element.init v s) = some (M4Element.init v s)) := by
  refine ⟨fun s v _ => ⟨?_, ?_⟩, fun s v _ => ⟨?_, ?_⟩⟩
  · have hg : (M3Element.init v s).system = (M3Element.init (0, 0, 0) s).system := rfl
    rw [M3Element.mul, if_pos hg, M3mulUnchecked_zero_right]
  · have hg : (M3Element.init (0, 0, 0) s).system = (M3Element.init v s).system := rfl
    rw [M3Element.mul, if_pos hg, M3mulUnchecked_zero_left]
  · have hg : (M4Element.init v s).system = (M4Element.init (0, 0, 0, 0) s).system := rfl
    rw [M4Element.mul, if_pos hg, M4mulUnchecked_zero_right]
  · have hg : (M4Element.init (0, 0, 0, 0) s).system = (M4Element.init v s).system := rfl
    rw [M4Element.mul, if_pos hg, M4mulUnchecked_zero_left]

/-- C4 witness: the identity laws instantiated at concrete elements. -/
theorem claim_C4_witness :
    (2 ≤ exS3.modulus ∧
      exA3.mul (M3Element.init (0, 0, 0) exS3) = some exA3 ∧
      (M3Element.init (0, 0, 0) exS3).mul exA3 = some exA3) ∧
    (2 ≤ exS4.modulus ∧
      exA4.mul (M4Element.init (0, 0, 0, 0) exS4) = some exA4 ∧
      (M4Element.init (0, 0, 0, 0) exS4).mul exA4 = some exA4) :=
  ⟨⟨by decide, (claim_C4_zero_is_two_sided_identity.1 exS3 (1, 2, 3) (by decide)).1,
      (claim_C4_zero_is_two_sided_identity.1 exS3 (1, 2, 3) (by decide)).2⟩,
   ⟨by decide, (claim_C4_zero_is_two_sided_identity.2 exS4 (1, 2, 3, 4) (by decide)).1,
      (claim_C4_zero_is_two_sided_identity.2 exS4 (1, 2, 3, 4) (by decide)).2⟩⟩

theorem M3pow_one (a : M3Element) :
    a.pow 1 = (M3Element.init (0, 0, 0) a.system).mulUnchecked a := by
  simp only [M3Element.pow]
  norm_num
  rw [M3Element.powAux]
  norm_num
  rw [M3Element.powAux]
  exact dif_pos rfl

theorem M4pow_one (a : M4Element) :
    a.pow 1 = (M4Element.init (0, 0, 0, 0) a.system).mulUnchecked a := by
  simp only [M4Element.pow]
  norm_num
  rw [M4Element.powAux]
  norm_num
  rw [M4Element.powAux]
  exact dif_pos rfl

/-- C5: for every element `a` of an `M3System` or `M4System` with modulus
≥ 2, `power(a, 1) == a`. -/
theorem claim_C5_pow_one :
    (∀ (s : M3System) (v : Int × Int × Int), 2 ≤ s.modulus →
      (M3Element.init v s).pow 1 = M3Element.init v s) ∧
    (∀ (s : M4System) (v : Int × Int × Int × Int), 2 ≤ s.modulus →
      (M4Element.init v s).pow 1 = M4Element.init v s) := by
  refine ⟨fun s v _ => ?_, fun s v _ => ?_⟩
  · rw [M3pow_one]
    have hs : (M3Element.init v s).system = s := rfl
    rw [hs, M3mulUnchecked_zero_left]
  · rw [M4pow_one]
    have hs : (M4Element.init v s).system = s := rfl
    rw [hs, M4mulUnchecked_zero_left]

/-- C5 witness: `power(a, 1) == a` at concrete elements. -/
theorem claim_C5_witness :
    (2 ≤ exS3.modulus ∧ exA3.pow 1 = exA3) ∧ (2 ≤ exS4.modulus ∧ exA4.pow 1 = exA4) :=
  ⟨⟨by decide, claim_C5_pow_one.1 exS3 (1, 2, 3) (by decide)⟩,
   ⟨by decide, claim_C5_pow_one.2 exS4 (1, 2, 3, 4) (by decide)⟩⟩

/-- C6: for every element `a` of an `M3System` or `M4System` with modulus
≥ 2, `power(a, 0)` equals the all-zero vector of the corresponding dimension,
bound to the same system. -/
theorem claim_C6_pow_zero :
    (∀ a : M3Element, 2 ≤ a.system.modulus →
      a.pow 0 = { v0 := 0, v1 := 0, v2 := 0, system := a.system }) ∧
    (∀ a : M4Element, 2 ≤ a.system.modulus →
      a.pow 0 = { v0 := 0, v1 := 0, v2 := 0, v3 := 0, system := a.system }) := by
  refine ⟨fun a _ => ?_, fun a _ => ?_⟩
  · ext <;> simp [M3Element.pow, M3Element.init, Int.zero_emod]
  · ext <;> simp [M4Element.pow, M4Element.init, Int.zero_emod]

/-- C6 witness: `power(a, 0)` at concrete elements. -/
theorem claim_C6_witness :
    (2 ≤ exA3.system.modulus ∧
      exA3.pow 0 = { v0 := 0, v1 := 0, v2 := 0, system := exA3.system }) ∧
    (2 ≤ exA4.system.modulus ∧
      exA4.pow 0 = { v0 := 0, v1 := 0, v2 := 0, v3 := 0, system := exA4.system }) :=
  ⟨⟨by decide, claim_C6_pow_zero.1 exA3 (by decide)⟩,
   ⟨by decide, claim_C6_pow_zero.2 exA4 (by decide)⟩⟩

/-- C7: for all elements `a, b` of the same system with modulus ≥ 2:
`subtract(a, b) == add(a, negate(b))`, `add(a, b) == add(b, a)`, and
`add(a, negate(a))` equals the all-zero vector. -/
theorem claim_C7_additive_group_laws :
    (∀ a b : M3Element, a.system = b.system → 2 ≤ a.system.modulus →
      a.sub b = a.add b.neg ∧ a.add b = b.add a ∧
      a.add a.neg = some { v0 := 0, v1 := 0, v2 := 0, system := a.system }) ∧
    (∀ a b : M4Element, a.system = b.system → 2 ≤ a.system.modulus →
      a.sub b = a.add b.neg ∧ a.add b = b.add a ∧
      a.add a.neg = some { v0 := 0, v1 := 0, v2 := 0, v3 := 0, system := a.system }) := by
  have key : ∀ x y M : Int, (x - y) % M % M = (x + -y % M % M) % M % M := by
    intro x y M
    rw [emod_emod_self (-y) M, emod_emod_self, emod_emod_self, add_emod_right_emod,
      sub_eq_add_neg]
  have key2 : ∀ x M : Int, (x + -x % M % M) % M % M = 0 := by
    intro x M
    rw [emod_emod_self (-x) M, emod_emod_self, add_emod_right_emod]
    simp
  constructor
  · intro a b hsys _
    refine ⟨?_, ?_, ?_⟩
    · have hg : a.system = b.neg.system := hsys
      rw [M3Element.sub, M3Element.add, if_pos hsys, if_pos hg]
      congr 1
      ext <;> simp only [M3Element.neg, M3Element.init, ← hsys] <;> exact key _ _ _
    · rw [M3Element.add, M3Element.add, if_pos hsys, if_pos hsys.symm]
      congr 1
      ext <;> simp only [M3Element.init, ← hsys] <;> ring_nf
    · have hg : a.system = a.neg.system := rfl
      rw [M3Element.add, if_pos hg]
      congr 1
      ext <;> simp only [M3Element.neg, M3Element.init] <;> exact key2 _ _
  · intro a b hsys _
    refine ⟨?_, ?_, ?_⟩
    · have hg : a.system = b.neg.system := hsys
      rw [M4Element.sub, M4Element.add, if_pos hsys, if_pos hg]
      congr 1
      ext <;> simp only [M4Element.neg, M4Element.init, ← hsys] <;> exact key _ _ _
    · rw [M4Element.add, M4Element.add, if_pos hsys, if_pos hsys.symm]
      congr 1
      ext <;> simp only [M4Element.init, ← hsys] <;> ring_nf
    · have hg : a.system = a.neg.system := rfl
      rw [M4Element.add, if_pos hg]
      congr 1
      ext <;> simp only [M4Element.neg, M4Element.init] <;> exact key2 _ _

/-- C7 witness: the additive laws at concrete elements. -/
theorem claim_C7_witness :
    (exA3.system = exB3.system ∧ 2 ≤ exA3.system.modulus ∧
      exA3.sub exB3 = exA3.add exB3.neg ∧ exA3.add exB3 = exB3.add exA3 ∧
      exA3.add exA3.neg = some { v0 := 0, v1 := 0, v2 := 0, system := exA3.system }) ∧
    (exA4.system = exB4.system ∧ 2 ≤ exA4.system.modulus ∧
      exA4.sub exB4 = exA4.add exB4.neg ∧ exA4.add exB4 = exB4.add exA4 ∧
      exA4.add exA4.neg = some { v0 := 0, v1 := 0, v2 := 0, v3 := 0, system := exA4.system }) :=
  ⟨⟨rfl, by decide, (claim_C7_additive_group_laws.1 exA3 exB3 rfl (by decide)).1,
      (claim_C7_additive_group_laws.1 exA3 exB3 rfl (by decide)).2.1,
      (claim_C7_additive_group_laws.1 exA3 exB3 rfl (by decide)).2.2⟩,
   ⟨rfl, by decide, (claim_C7_additive_group_laws.2 exA4 exB4 rfl (by decide)).1,
      (claim_C7_additive_group_laws.2 exA4 exB4 rfl (by decide)).2.1,
      (claim_C7_additive_group_laws.2 exA4 exB4 rfl (by decide)).2.2⟩⟩

/-- C8: there exist a system (with non-zero structure constants and modulus
≥ 2) and elements `a, b` of that system such that
`multiply(a, b) != multiply(b, a)`: the defining multiplication is not
commutative in general. -/
theorem claim_C8_noncommutative :
    ∃ (s : M3System) (a b : M3Element), a.system = s ∧ b.system = s ∧
      2 ≤ s.modulus ∧ s.A ≠ 0 ∧ s.B ≠ 0 ∧ s.C ≠ 0 ∧ s.D ≠ 0 ∧ s.E ≠ 0 ∧
      a.mul b ≠ b.mul a :=
  ⟨exS3, exA3, exB3, by decide⟩

/-- C9: binary operations between elements of two distinct system instances
(even instances with identical constants, since comparison is
identity-based) never return an element: they fail (`none`, modelling the
`NotImplemented` failure path of the source). -/
theorem claim_C9_system_mismatch :
    (∀ a b : M3Element, a.system ≠ b.system → a.add b = none ∧ a.mul b = none) ∧
    (∀ a b : M4Element, a.system ≠ b.system → a.add b = none ∧ a.mul b = none) := by
  refine ⟨fun a b h => ⟨?_, ?_⟩, fun a b h => ⟨?_, ?_⟩⟩ <;>
    simp [M3Element.add, M3Element.mul, M4Element.add, M4Element.mul, h]

/-- C9 witness: two system instances with identical constants but distinct
identities reject `add` and `multiply`. -/
theorem claim_C9_witness :
    ((M3Element.init (1, 2, 3) exS3).system ≠ (M3Element.init (1, 2, 3) exS3b).system ∧
      (M3Element.init (1, 2, 3) exS3).add (M3Element.init (1, 2, 3) exS3b) = none ∧
      (M3Element.init (1, 2, 3) exS3).mul (M3Element.init (1, 2, 3) exS3b) = none) ∧
    ((M4Element.init (1, 2, 3, 4) exS4).system ≠ (M4Element.init (1, 2, 3, 4) exS4b).system ∧
      (M4Element.init (1, 2, 3, 4) exS4).add (M4Element.init (1, 2, 3, 4) exS4b) = none ∧
      (M4Element.init (1, 2, 3, 4) exS4).mul (M4Element.init (1, 2, 3, 4) exS4b) = none) :=
  ⟨⟨by decide, (claim_C9_system_mismatch.1 _ _ (by decide)).1,
      (claim_C9_system_mismatch.1 _ _ (by decide)).2⟩,
   ⟨by decide, (claim_C9_system_mismatch.2 _ _ (by decide)).1,
      (claim_C9_system_mismatch.2 _ _ (by decide)).2⟩⟩

/-- C10 counterexample: constructing a system with modulus `0` (not an
integer ≥ 2) does not fail with any error — the constructor returns a system
object, performing no validation at all. -/
theorem claim_C10_counterexample :
    M3System.init 1 2 3 1 2 0 0 =
      Except.ok { A := 1, B := 2, C := 3, D := 1, E := 2, modulus := 0, oid := 0 } ∧
    M4System.init 1 2 3 4 5 6 7 8 9 0 0 =
      Except.ok { A := 1, B := 2, C := 3, D := 4, E := 5, F := 6, G := 7, H := 8,
                  I := 9, modulus := 0, oid := 0 } :=
  ⟨rfl, rfl⟩

/-- C10 (amended): system construction never fails — for every integer
modulus (including moduli < 2) and arbitrary integer structure constants,
construction succeeds and stores the fields unvalidated; the source contains
no InvalidConfiguration check. -/
theorem claim_C10_amended_no_validation :
    (∀ (A B C D E modulus : Int) (oid : Nat),
      M3System.init A B C D E modulus oid =
        Except.ok { A := A, B := B, C := C, D := D, E := E,
                    modulus := modulus, oid := oid }) ∧
    (∀ (A B C D E F G H I modulus : Int) (oid : Nat),
      M4System.init A B C D E F G H I modulus oid =
        Except.ok { A := A, B := B, C := C, D := D, E := E, F := F, G := G, H := H,
                    I := I, modulus := modulus, oid := oid }) :=
  ⟨fun _ _ _ _ _ _ _ => rfl, fun _ _ _ _ _ _ _ _ _ _ _ => rfl⟩
